import Mathlib

/-!
Shallow embedding of the CamPlanner visibility engine and recomputation
scheduler (src/scripts/raycast.js), with theorems checking the
natural-language specification against the code.

Coordinates are modelled as real numbers; JavaScript `Math.cos`, `Math.sin`,
`Math.atan2` and `Math.sqrt` become `Real.cos`, `Real.sin`, `Complex.arg`
and `Real.sqrt`.
-/

namespace CamPlanner

noncomputable section

/-- A 2D point, `{x, y}` in the source. -/
structure Point where
  x : ℝ
  y : ℝ

/-- A line segment `{p1, p2}` as produced by `RayCaster.getAllSegments`. -/
structure Segment where
  p1 : Point
  p2 : Point

/-- The tag of an obstacle object (`obstacle.type` in the source). -/
inductive ObstacleType
  | line
  | freehand
  | rectangle
deriving DecidableEq

/-- An obstacle: a type tag, a point list, and a rotation angle in degrees
(the source reads `rectangle.angle || 0`; we store the angle directly,
with `0` standing for an absent angle). -/
structure Obstacle where
  type : ObstacleType
  points : List Point
  angle : ℝ

/-- The camera fields read by the ray caster (`camera.js` constructor:
position, facing angle in degrees, field of view in degrees, maximum
view distance). -/
structure Camera where
  x : ℝ
  y : ℝ
  angle : ℝ
  fov : ℝ
  maxDistance : ℝ

/-- Canvas bounds `{width, height}`. -/
structure CanvasBounds where
  width : ℝ
  height : ℝ

/-- The camera position as a point. -/
def cameraPos (camera : Camera) : Point := ⟨camera.x, camera.y⟩

/-- The boundary margin constant in `getAllSegments` (source line 48). -/
def margin : ℝ := 10000

/-- The four canvas boundary segments pushed by `getAllSegments`
(source lines 49-54): top, right, bottom, left. -/
def boundarySegments (canvasBounds : CanvasBounds) : List Segment :=
  [ ⟨⟨-margin, -margin⟩, ⟨canvasBounds.width + margin, -margin⟩⟩,
    ⟨⟨canvasBounds.width + margin, -margin⟩,
     ⟨canvasBounds.width + margin, canvasBounds.height + margin⟩⟩,
    ⟨⟨canvasBounds.width + margin, canvasBounds.height + margin⟩,
     ⟨-margin, canvasBounds.height + margin⟩⟩,
    ⟨⟨-margin, canvasBounds.height + margin⟩, ⟨-margin, -margin⟩⟩ ]

/-- `RayCaster.getRectangleCorners` (source lines 95-124): axis-aligned box
of the two stored points, center, rotation of the four local corners by the
stored angle (degrees to radians), translation to world coordinates. -/
def getRectangleCorners (rectangle : Obstacle) : List Point :=
  let P0 := rectangle.points.getD 0 ⟨0, 0⟩
  let P1 := rectangle.points.getD 1 ⟨0, 0⟩
  let x := min P0.x P1.x
  let y := min P0.y P1.y
  let width := |P1.x - P0.x|
  let height := |P1.y - P0.y|
  let centerX := x + width / 2
  let centerY := y + height / 2
  let angle := rectangle.angle * Real.pi / 180
  let localCorners : List Point :=
    [⟨-width / 2, -height / 2⟩, ⟨width / 2, -height / 2⟩,
     ⟨width / 2, height / 2⟩, ⟨-width / 2, height / 2⟩]
  localCorners.map fun corner =>
    ⟨centerX + (corner.x * Real.cos angle - corner.y * Real.sin angle),
     centerY + (corner.x * Real.sin angle + corner.y * Real.cos angle)⟩

/-- The segments contributed by one obstacle in the loop of
`getAllSegments` (source lines 57-85). -/
def obstacleSegments (obstacle : Obstacle) : List Segment :=
  if obstacle.points.length = 0 then []
  else
    match obstacle.type with
    | ObstacleType.line =>
        if 2 ≤ obstacle.points.length then
          [⟨obstacle.points.getD 0 ⟨0, 0⟩, obstacle.points.getD 1 ⟨0, 0⟩⟩]
        else []
    | ObstacleType.freehand =>
        (obstacle.points.zip obstacle.points.tail).map fun pq => ⟨pq.1, pq.2⟩
    | ObstacleType.rectangle =>
        let corners := getRectangleCorners obstacle
        (List.range 4).map fun i =>
          ⟨corners.getD i ⟨0, 0⟩, corners.getD ((i + 1) % 4) ⟨0, 0⟩⟩

/-- `RayCaster.getAllSegments` (source lines 44-88): boundary segments
followed by the obstacle segments in obstacle order. -/
def getAllSegments (obstacles : List Obstacle) (canvasBounds : CanvasBounds) :
    List Segment :=
  boundarySegments canvasBounds ++ obstacles.flatMap obstacleSegments

/-- `RayCaster.lineIntersection` (source lines 267-292): parametric
two-line intersection, parallel when the denominator is below `0.0001`
in absolute value, valid only when both parameters lie in `[0, 1]`. -/
def lineIntersection (p1 p2 p3 p4 : Point) : Option Point :=
  let denominator :=
    (p1.x - p2.x) * (p3.y - p4.y) - (p1.y - p2.y) * (p3.x - p4.x)
  if |denominator| < 0.0001 then none
  else
    let t := ((p1.x - p3.x) * (p3.y - p4.y) - (p1.y - p3.y) * (p3.x - p4.x)) /
      denominator
    let u := -((p1.x - p2.x) * (p1.y - p3.y) - (p1.y - p2.y) * (p1.x - p3.x)) /
      denominator
    if 0 ≤ t ∧ t ≤ 1 ∧ 0 ≤ u ∧ u ≤ 1 then
      some ⟨p1.x + t * (p2.x - p1.x), p1.y + t * (p2.y - p1.y)⟩
    else none

/-- `RayCaster.distance` (source lines 300-304). -/
def distance (p1 p2 : Point) : ℝ :=
  Real.sqrt ((p2.x - p1.x) * (p2.x - p1.x) + (p2.y - p1.y) * (p2.y - p1.y))

/-- One recorded ray hit (source lines 229-233). -/
structure RayHit where
  angle : ℝ
  point : Point
  distance : ℝ

/-- The ray endpoint at twice the maximum distance (source lines 191-194). -/
def rayEndOf (camera : Camera) (angle : ℝ) : Point :=
  ⟨camera.x + Real.cos angle * camera.maxDistance * 2,
   camera.y + Real.sin angle * camera.maxDistance * 2⟩

/-- One iteration of the closest-intersection loop in `castRays`
(source lines 200-215): keep the intersection of smallest distance. -/
def closestStep (camera : Camera) (rayEnd : Point)
    (closest : Option (Point × ℝ)) (segment : Segment) : Option (Point × ℝ) :=
  match lineIntersection (cameraPos camera) rayEnd segment.p1 segment.p2 with
  | none => closest
  | some intersection =>
      let d := distance (cameraPos camera) intersection
      match closest with
      | none => some (intersection, d)
      | some best => if d < best.2 then some (intersection, d) else closest

/-- The closest intersection over all segments, `none` when no segment is
hit (`closestIntersection`/`closestDistance` in the source, starting from
`null`/`Infinity`). -/
def closestHit (camera : Camera) (rayEnd : Point) (segments : List Segment) :
    Option (Point × ℝ) :=
  segments.foldl (closestStep camera rayEnd) none

/-- The body of the per-angle loop of `RayCaster.castRays` (source lines
189-235): find the closest intersection; if it exists and lies beyond the
maximum distance, cap the point at exactly the maximum distance; if no
intersection exists, record no hit at this angle. -/
def castRay (camera : Camera) (angle : ℝ) (segments : List Segment) :
    Option RayHit :=
  match closestHit camera (rayEndOf camera angle) segments with
  | none => none
  | some best =>
      let d := distance (cameraPos camera) best.1
      if camera.maxDistance < d then
        some { angle := angle,
               point := ⟨camera.x + Real.cos angle * camera.maxDistance,
                         camera.y + Real.sin angle * camera.maxDistance⟩,
               distance := camera.maxDistance }
      else
        some { angle := angle, point := best.1, distance := best.2 }

/-- The comparator of the final sort in `castRays`
(source line 238: `hits.sort((a, b) => a.angle - b.angle)`). -/
def hitLE (a b : RayHit) : Bool := a.angle ≤ b.angle

/-- `RayCaster.castRays` (source lines 186-241): cast every angle, collect
the hits, sort them by angle ascending. -/
def castRays (camera : Camera) (angles : List ℝ) (segments : List Segment) :
    List RayHit :=
  (angles.filterMap fun angle => castRay camera angle segments).mergeSort hitLE

/-- `RayCaster.buildVisibilityPolygon` (source lines 249-257): the camera
position followed by the hit points. -/
def buildVisibilityPolygon (camera : Camera) (rayHits : List RayHit) :
    List Point :=
  cameraPos camera :: rayHits.map fun hit => hit.point

/-- `Math.atan2 y x` as the argument of the complex number `x + y i`. -/
def atan2 (y x : ℝ) : ℝ := Complex.arg ⟨x, y⟩

/-- `this.rayCount` (source line 9). -/
def rayCount : ℕ := 360

/-- The `angles.add` of the source: a JavaScript `Set` keeps insertion
order and ignores a value already present. -/
def addAngle (angles : List ℝ) (a : ℝ) : List ℝ :=
  if a ∈ angles then angles else angles ++ [a]

/-- The six angles added per segment in `getUniqueAngles` (source lines
136-148): the endpoint angles and their `±0.0001` offsets. -/
def segmentAngles (camera : Camera) (angles : List ℝ) (segment : Segment) :
    List ℝ :=
  let angle1 := atan2 (segment.p1.y - camera.y) (segment.p1.x - camera.x)
  let angle2 := atan2 (segment.p2.y - camera.y) (segment.p2.x - camera.x)
  let offset : ℝ := 0.0001
  addAngle (addAngle (addAngle (addAngle (addAngle (addAngle angles
    (angle1 - offset)) angle1) (angle1 + offset)) (angle2 - offset)) angle2)
    (angle2 + offset)

/-- The first normalization loop of the FOV filter (source line 166:
`while (diff > Math.PI) diff -= 2 * Math.PI`). -/
def normLoop1 (d : ℝ) : ℝ :=
  if Real.pi < d then normLoop1 (d - 2 * Real.pi) else d
termination_by (⌈(d - Real.pi) / (2 * Real.pi)⌉).toNat
decreasing_by
  have h2pi : (0 : ℝ) < 2 * Real.pi := by positivity
  have hq : 0 < ⌈(d - Real.pi) / (2 * Real.pi)⌉ :=
    Int.ceil_pos.mpr (div_pos (by linarith) h2pi)
  have heq : (d - 2 * Real.pi - Real.pi) / (2 * Real.pi) =
      (d - Real.pi) / (2 * Real.pi) - 1 := by
    field_simp
    ring
  rw [heq, Int.ceil_sub_one]
  omega

/-- The second normalization loop of the FOV filter (source line 167:
`while (diff < -Math.PI) diff += 2 * Math.PI`). -/
def normLoop2 (d : ℝ) : ℝ :=
  if d < -Real.pi then normLoop2 (d + 2 * Real.pi) else d
termination_by (⌈(-Real.pi - d) / (2 * Real.pi)⌉).toNat
decreasing_by
  have h2pi : (0 : ℝ) < 2 * Real.pi := by positivity
  have hq : 0 < ⌈(-Real.pi - d) / (2 * Real.pi)⌉ :=
    Int.ceil_pos.mpr (div_pos (by linarith) h2pi)
  have heq : (-Real.pi - (d + 2 * Real.pi)) / (2 * Real.pi) =
      (-Real.pi - d) / (2 * Real.pi) - 1 := by
    field_simp
    ring
  rw [heq, Int.ceil_sub_one]
  omega

/-- The angle-difference normalization of the FOV filter
(source lines 165-167). -/
def normalizeDiff (d : ℝ) : ℝ := normLoop2 (normLoop1 d)

/-- `RayCaster.getUniqueAngles` (source lines 132-177): endpoint angles
with offsets, 360 uniformly spaced angles, FOV filtering, and the two
FOV boundary angles appended last. -/
def getUniqueAngles (camera : Camera) (segments : List Segment) : List ℝ :=
  let endpointAngles := segments.foldl (segmentAngles camera) []
  let withUniform := (List.range rayCount).foldl
    (fun l (i : ℕ) => addAngle l ((i : ℝ) / ((rayCount : ℕ) : ℝ) * (Real.pi * 2)))
    endpointAngles
  let cameraAngleRad := camera.angle * Real.pi / 180
  let fovRad := camera.fov * Real.pi / 180
  let filteredAngles := withUniform.filter fun angle =>
    |normalizeDiff (angle - cameraAngleRad)| ≤ fovRad / 2
  filteredAngles ++ [cameraAngleRad - fovRad / 2, cameraAngleRad + fovRad / 2]

/-- The result of `RayCaster.calculateVisibility`
(source lines 32-35). -/
structure VisibilityData where
  polygon : List Point
  rayHits : List RayHit

/-- `RayCaster.calculateVisibility` (source lines 19-36). -/
def calculateVisibility (camera : Camera) (obstacles : List Obstacle)
    (canvasBounds : CanvasBounds) : VisibilityData :=
  let segments := getAllSegments obstacles canvasBounds
  let angles := getUniqueAngles camera segments
  let rayHits := castRays camera angles segments
  ⟨buildVisibilityPolygon camera rayHits, rayHits⟩

/-!
## Recomputation scheduler

Shallow embedding of `VisionCalculator` (source lines 311-401).  The
JavaScript timer becomes an optional absolute fire time; a call records
the current time as a parameter.  `computeCount` counts completed
recomputation passes (the observable work of `recalculateAll` past its
enabled guard).
-/

/-- The editor-owned collections read by `recalculateAll`
(`canvasManager.cameras`, `canvasManager.obstacles`, canvas size). -/
structure EditorEnv where
  cameras : List (ℕ × Camera)
  obstacles : List Obstacle
  bounds : CanvasBounds

/-- The per-camera recomputation loop of `recalculateAll`
(source lines 355-363). -/
def computeAll (env : EditorEnv) : List (ℕ × VisibilityData) :=
  env.cameras.map fun c => (c.1, calculateVisibility c.2 env.obstacles env.bounds)

/-- `this.debounceDelay` (source line 317). -/
def debounceDelay : ℕ := 400

/-- The state of a `VisionCalculator`: the enabled flag, the pending
debounce timer as an absolute fire time, the result cache, and the count
of completed recomputation passes. -/
structure SchedulerState where
  enabled : Bool
  timer : Option ℕ
  visionData : List (ℕ × VisibilityData)
  computeCount : ℕ

/-- `VisionCalculator.requestRecalculation` at time `now` (source lines
324-336): when enabled, clear any pending timer and arm a new one for
`now + debounceDelay`; when disabled, do nothing. -/
def requestRecalculation (now : ℕ) (s : SchedulerState) : SchedulerState :=
  if s.enabled then { s with timer := some (now + debounceDelay) } else s

/-- `VisionCalculator.recalculateAll` (source lines 341-369): return
immediately when disabled; otherwise replace the cache with fresh results
for every camera. -/
def recalculateAll (env : EditorEnv) (s : SchedulerState) : SchedulerState :=
  if s.enabled then
    { s with visionData := computeAll env, computeCount := s.computeCount + 1 }
  else s

/-- The pending debounce callback firing: the timer expires and invokes
`recalculateAll` (source lines 333-335). -/
def fireTimer (env : EditorEnv) (s : SchedulerState) : SchedulerState :=
  match s.timer with
  | none => s
  | some _ => recalculateAll env { s with timer := none }

/-- `VisionCalculator.setEnabled` at time `now` (source lines 384-392):
set the flag; when disabling, clear the cache; when enabling, request a
recalculation.  The source does not touch `debounceTimer` when
disabling. -/
def setEnabled (value : Bool) (now : ℕ) (env : EditorEnv)
    (s : SchedulerState) : SchedulerState :=
  if value then requestRecalculation now { s with enabled := true }
  else { s with enabled := false, visionData := [] }

/-- An event of the single-threaded event loop driving the scheduler. -/
inductive SchedulerEvent
  | request : ℕ → SchedulerEvent
  | fire : SchedulerEvent
  | enable : Bool → ℕ → SchedulerEvent
deriving DecidableEq

/-- One event-loop step. -/
def schedStep (env : EditorEnv) (s : SchedulerState) :
    SchedulerEvent → SchedulerState
  | SchedulerEvent.request t => requestRecalculation t s
  | SchedulerEvent.fire => fireTimer env s
  | SchedulerEvent.enable b t => setEnabled b t env s

/-- Run a sequence of event-loop steps. -/
def schedRun (env : EditorEnv) (s : SchedulerState)
    (events : List SchedulerEvent) : SchedulerState :=
  events.foldl (schedStep env) s

/-!
## Concrete instances and specification-side definitions

The sensor of the specification's test properties: position `(100, 100)`,
facing angle `0` degrees, field of view `90` degrees, maximum distance
`300` (also the constructor defaults of `camera.js`), on a `800 × 600`
canvas.
-/

/-- The specification's test sensor. -/
def cam0 : Camera := ⟨100, 100, 0, 90, 300⟩

/-- A typical canvas. -/
def bounds0 : CanvasBounds := ⟨800, 600⟩

/-- A vertical line obstacle crossing the `0`-degree ray at `x = 500`,
distance `400` from the sensor: beyond `maxDistance = 300` but within the
ray extent `600`. -/
def obs500 : Obstacle := ⟨ObstacleType.line, [⟨500, 50⟩, ⟨500, 150⟩], 0⟩

/-- An editor environment with no cameras and no obstacles. -/
def envEmpty : EditorEnv := ⟨[], [], ⟨800, 600⟩⟩

/-- Rotation of a vector by an angle, as in the specification's
rotated-rectangle formula. -/
def rotatePoint (v : Point) (theta : ℝ) : Point :=
  ⟨v.x * Real.cos theta - v.y * Real.sin theta,
   v.x * Real.sin theta + v.y * Real.cos theta⟩

/-- The rectangle corner formula in the specification's own words: the
center is the midpoint of the axis-aligned box spanned by the two stored
corner points; the four local half-extent offsets `(±width/2, ±height/2)`
are rotated by the stored angle (degrees to radians) around the center
and translated to world coordinates. -/
def specRectangleCorners (p0 p1 : Point) (angleDeg : ℝ) : List Point :=
  let center : Point := ⟨(p0.x + p1.x) / 2, (p0.y + p1.y) / 2⟩
  let hw := |p1.x - p0.x| / 2
  let hh := |p1.y - p0.y| / 2
  let theta := angleDeg * Real.pi / 180
  ([⟨-hw, -hh⟩, ⟨hw, -hh⟩, ⟨hw, hh⟩, ⟨-hw, hh⟩] : List Point).map fun c =>
    ⟨center.x + (rotatePoint c theta).x, center.y + (rotatePoint c theta).y⟩

/-!
## Basic geometry lemmas

A finite ray of length `2 * maxDistance` cannot reach an axis-aligned
segment whose supporting line is farther from the ray origin than the
ray's own extent: the line parameter `t` along the ray would have to
exceed `1`.
-/

/-- A horizontal segment whose line is farther from `p1` (vertically) than
`p2` is produces no valid intersection with the segment `p1 p2`. -/
theorem lineIntersection_horizontal_none (p1 p2 : Point) (x3 x4 Y : ℝ)
    (hY : |p2.y - p1.y| < |Y - p1.y|) :
    lineIntersection p1 p2 ⟨x3, Y⟩ ⟨x4, Y⟩ = none := by
  simp only [lineIntersection, sub_self, mul_zero, zero_sub]
  split_ifs with h1 h2
  · rfl
  · exfalso
    obtain ⟨ht0, ht1, hrest⟩ := h2
    have hd : (p1.y - p2.y) * (x3 - x4) ≠ 0 := by
      intro h
      rw [h] at h1
      simp at h1
      linarith
    have hy2 : p1.y - p2.y ≠ 0 := fun h => hd (by rw [h]; ring)
    have hx34 : x3 - x4 ≠ 0 := fun h => hd (by rw [h]; ring)
    have ht : -((p1.y - Y) * (x3 - x4)) / -((p1.y - p2.y) * (x3 - x4)) =
        (p1.y - Y) / (p1.y - p2.y) := by
      rw [neg_div_neg_eq]
      exact mul_div_mul_right _ _ hx34
    rw [ht] at ht0 ht1
    have habs : |(p1.y - Y) / (p1.y - p2.y)| ≤ 1 := abs_le.mpr ⟨by linarith, ht1⟩
    have hgt : 1 < |(p1.y - Y) / (p1.y - p2.y)| := by
      rw [abs_div, lt_div_iff (abs_pos.mpr hy2), one_mul]
      calc |p1.y - p2.y| = |p2.y - p1.y| := abs_sub_comm _ _
        _ < |Y - p1.y| := hY
        _ = |p1.y - Y| := abs_sub_comm _ _
    linarith
  · rfl

/-- A vertical segment whose line is farther from `p1` (horizontally) than
`p2` is produces no valid intersection with the segment `p1 p2`. -/
theorem lineIntersection_vertical_none (p1 p2 : Point) (X y3 y4 : ℝ)
    (hX : |p2.x - p1.x| < |X - p1.x|) :
    lineIntersection p1 p2 ⟨X, y3⟩ ⟨X, y4⟩ = none := by
  simp only [lineIntersection, sub_self, mul_zero, zero_mul, sub_zero]
  split_ifs with h1 h2
  · rfl
  · exfalso
    obtain ⟨ht0, ht1, hrest⟩ := h2
    have hd : (p1.x - p2.x) * (y3 - y4) ≠ 0 := by
      intro h
      rw [h] at h1
      simp at h1
      linarith
    have hx2 : p1.x - p2.x ≠ 0 := fun h => hd (by rw [h]; ring)
    have hy34 : y3 - y4 ≠ 0 := fun h => hd (by rw [h]; ring)
    have ht : (p1.x - X) * (y3 - y4) / ((p1.x - p2.x) * (y3 - y4)) =
        (p1.x - X) / (p1.x - p2.x) := mul_div_mul_right _ _ hy34
    rw [ht] at ht0 ht1
    have habs : |(p1.x - X) / (p1.x - p2.x)| ≤ 1 := abs_le.mpr ⟨by linarith, ht1⟩
    have hgt : 1 < |(p1.x - X) / (p1.x - p2.x)| := by
      rw [abs_div, lt_div_iff (abs_pos.mpr hx2), one_mul]
      calc |p1.x - p2.x| = |p2.x - p1.x| := abs_sub_comm _ _
        _ < |X - p1.x| := hX
        _ = |p1.x - X| := abs_sub_comm _ _
    linarith
  · rfl

/-- The ray extent of `cam0` is bounded by `600` vertically. -/
theorem rayEnd_y_bound (a : ℝ) :
    |(rayEndOf cam0 a).y - (cameraPos cam0).y| ≤ 600 := by
  have h : (rayEndOf cam0 a).y - (cameraPos cam0).y = Real.sin a * 600 := by
    simp [rayEndOf, cameraPos, cam0]
    ring
  rw [h, abs_mul]
  have := Real.abs_sin_le_one a
  have h6 : |(600 : ℝ)| = 600 := by norm_num
  rw [h6]
  nlinarith

/-- The ray extent of `cam0` is bounded by `600` horizontally. -/
theorem rayEnd_x_bound (a : ℝ) :
    |(rayEndOf cam0 a).x - (cameraPos cam0).x| ≤ 600 := by
  have h : (rayEndOf cam0 a).x - (cameraPos cam0).x = Real.cos a * 600 := by
    simp [rayEndOf, cameraPos, cam0]
    ring
  rw [h, abs_mul]
  have := Real.abs_cos_le_one a
  have h6 : |(600 : ℝ)| = 600 := by norm_num
  rw [h6]
  nlinarith

/-- No ray of `cam0` reaches any of the four inflated boundary segments:
they lie at least `10100` away while the ray extends only `600`. -/
theorem boundary_miss (a : ℝ) :
    closestHit cam0 (rayEndOf cam0 a) (boundarySegments bounds0) = none := by
  have hy := rayEnd_y_bound a
  have hx := rayEnd_x_bound a
  have hcy : (cameraPos cam0).y = 100 := rfl
  have hcx : (cameraPos cam0).x = 100 := rfl
  have h1 : lineIntersection (cameraPos cam0) (rayEndOf cam0 a)
      ⟨-margin, -margin⟩ ⟨bounds0.width + margin, -margin⟩ = none := by
    apply lineIntersection_horizontal_none
    rw [hcy]
    have : |(-margin : ℝ) - 100| = 10100 := by norm_num [margin]
    rw [this]
    calc |(rayEndOf cam0 a).y - 100| ≤ 600 := by rw [← hcy]; exact hy
      _ < 10100 := by norm_num
  have h2 : lineIntersection (cameraPos cam0) (rayEndOf cam0 a)
      ⟨bounds0.width + margin, -margin⟩
      ⟨bounds0.width + margin, bounds0.height + margin⟩ = none := by
    apply lineIntersection_vertical_none
    rw [hcx]
    have : |(bounds0.width + margin : ℝ) - 100| = 10700 := by
      norm_num [margin, bounds0]
    rw [this]
    calc |(rayEndOf cam0 a).x - 100| ≤ 600 := by rw [← hcx]; exact hx
      _ < 10700 := by norm_num
  have h3 : lineIntersection (cameraPos cam0) (rayEndOf cam0 a)
      ⟨bounds0.width + margin, bounds0.height + margin⟩
      ⟨-margin, bounds0.height + margin⟩ = none := by
    apply lineIntersection_horizontal_none
    rw [hcy]
    have : |(bounds0.height + margin : ℝ) - 100| = 10500 := by
      norm_num [margin, bounds0]
    rw [this]
    calc |(rayEndOf cam0 a).y - 100| ≤ 600 := by rw [← hcy]; exact hy
      _ < 10500 := by norm_num
  have h4 : lineIntersection (cameraPos cam0) (rayEndOf cam0 a)
      ⟨-margin, bounds0.height + margin⟩ ⟨-margin, -margin⟩ = none := by
    apply lineIntersection_vertical_none
    rw [hcx]
    have : |(-margin : ℝ) - 100| = 10100 := by norm_num [margin]
    rw [this]
    calc |(rayEndOf cam0 a).x - 100| ≤ 600 := by rw [← hcx]; exact hx
      _ < 10100 := by norm_num
  simp [closestHit, boundarySegments, closestStep, h1, h2, h3, h4]

/-- With no obstacles on the `800 × 600` canvas, every ray of `cam0`
misses everything: the boundary rectangle is unreachable. -/
theorem castRay_empty_none (a : ℝ) :
    castRay cam0 a (getAllSegments [] bounds0) = none := by
  have hseg : getAllSegments [] bounds0 = boundarySegments bounds0 := by
    simp [getAllSegments]
  rw [hseg]
  simp [castRay, boundary_miss a]

/-- Helper: a `filterMap` over a function that is `none` everywhere on the
list produces the empty list. -/
theorem filterMap_none_of_all {α β : Type} (f : α → Option β) :
    ∀ l : List α, (∀ a ∈ l, f a = none) → l.filterMap f = []
  | [], _ => rfl
  | a :: l, h => by
    rw [List.filterMap_cons, h a (List.mem_cons_self a l)]
    exact filterMap_none_of_all f l fun b hb => h b (List.mem_cons_of_mem a hb)

/-- C1.  The specification says that with zero obstacles the polygon is
exactly the FOV sector: angular-extent vertices at `angle - fov/2` and
`angle + fov/2`, every hit at distance exactly `maxDistance`.  The code
disagrees: for the spec's own test sensor at `(100, 100)` with
`maxDistance 300` on a `800 × 600` canvas, the ray segments (length
`2 * maxDistance = 600`) can never reach the boundary rectangle inflated
by the `10000` margin, so no candidate angle records any hit and the
returned polygon degenerates to the sensor point alone — no vertex lies
at distance `300`, contradicting the claim (and the intent stated in the
code comment that the margin ensures rays hit the boundary). -/
theorem claim1_no_obstacle_polygon_degenerates :
    (calculateVisibility cam0 [] bounds0).polygon = [⟨100, 100⟩] ∧
    (calculateVisibility cam0 [] bounds0).rayHits = [] := by
  have hhits :
      castRays cam0 (getUniqueAngles cam0 (getAllSegments [] bounds0))
        (getAllSegments [] bounds0) = [] := by
    unfold castRays
    rw [filterMap_none_of_all _ _ fun a _ => castRay_empty_none a]
    simp
  constructor
  · show buildVisibilityPolygon cam0 _ = _
    rw [hhits]
    rfl
  · exact hhits

/-- C2.  The specification says that because the boundary rectangle always
encloses the sensor, every candidate angle yields a valid nearest
intersection and hence a hit entry.  The code disagrees: the sensor
`(100, 100)` lies inside the `800 × 600` scene bounds, the FOV boundary
angle `-π/4` is a candidate angle, yet its ray (length `600`) intersects
no segment at all — the inflated boundary is more than `10100` away. -/
theorem claim2_candidate_angle_without_hit :
    (cam0.x ≤ bounds0.width ∧ cam0.y ≤ bounds0.height ∧ 0 ≤ cam0.x ∧ 0 ≤ cam0.y) ∧
    (-(Real.pi / 4)) ∈ getUniqueAngles cam0 (getAllSegments [] bounds0) ∧
    castRay cam0 (-(Real.pi / 4)) (getAllSegments [] bounds0) = none := by
  refine ⟨by norm_num [cam0, bounds0], ?_, castRay_empty_none _⟩
  unfold getUniqueAngles
  apply List.mem_append_right
  have h : cam0.angle * Real.pi / 180 - cam0.fov * Real.pi / 180 / 2 =
      -(Real.pi / 4) := by
    norm_num [cam0]
    ring
  rw [h]
  exact List.mem_cons_self _ _

/-- A valid intersection with a vertical segment lies on that segment's
supporting line `x = X`. -/
theorem lineIntersection_vertical_some (p1 p2 : Point) (X y3 y4 : ℝ)
    (pt : Point) (h : lineIntersection p1 p2 ⟨X, y3⟩ ⟨X, y4⟩ = some pt) :
    pt.x = X := by
  simp only [lineIntersection, sub_self, mul_zero, zero_mul, sub_zero] at h
  split_ifs at h with h1 h2
  have hd : (p1.x - p2.x) * (y3 - y4) ≠ 0 := by
    intro hz
    rw [hz] at h1
    simp at h1
    linarith
  have hx2 : p1.x - p2.x ≠ 0 := fun hz => hd (by rw [hz]; ring)
  have hy34 : y3 - y4 ≠ 0 := fun hz => hd (by rw [hz]; ring)
  have ht : (p1.x - X) * (y3 - y4) / ((p1.x - p2.x) * (y3 - y4)) =
      (p1.x - X) / (p1.x - p2.x) := mul_div_mul_right _ _ hy34
  injection h with h
  rw [← h]
  simp only [ht]
  field_simp
  ring

/-- The distance dominates the horizontal displacement. -/
theorem abs_dx_le_distance (p1 pt : Point) :
    |pt.x - p1.x| ≤ distance p1 pt := by
  unfold distance
  rw [← Real.sqrt_sq_eq_abs]
  apply Real.sqrt_le_sqrt
  nlinarith [sq_nonneg (pt.y - p1.y), sq_nonneg (pt.x - p1.x)]

/-- With the vertical obstacle at `x = 500`, every ray of `cam0` either
misses everything or records the capped hit at exactly `maxDistance`
along its angle: any intersection with the obstacle lies at distance at
least `400 > 300` from the sensor, and the boundary is unreachable. -/
theorem castRay_obs_cap (a : ℝ) :
    castRay cam0 a (getAllSegments [obs500] bounds0) = none ∨
    castRay cam0 a (getAllSegments [obs500] bounds0) =
      some ⟨a, ⟨100 + Real.cos a * 300, 100 + Real.sin a * 300⟩, 300⟩ := by
  have hseg : getAllSegments [obs500] bounds0 =
      boundarySegments bounds0 ++ [⟨⟨500, 50⟩, ⟨500, 150⟩⟩] := by
    simp [getAllSegments, obstacleSegments, obs500]
  have hch : closestHit cam0 (rayEndOf cam0 a) (getAllSegments [obs500] bounds0) =
      closestStep cam0 (rayEndOf cam0 a) none ⟨⟨500, 50⟩, ⟨500, 150⟩⟩ := by
    rw [hseg]
    unfold closestHit
    rw [List.foldl_append]
    have hb := boundary_miss a
    unfold closestHit at hb
    rw [hb]
    rfl
  cases hli : lineIntersection (cameraPos cam0) (rayEndOf cam0 a)
      ⟨500, 50⟩ ⟨500, 150⟩ with
  | none =>
      left
      unfold castRay
      rw [hch]
      simp only [closestStep, hli]
  | some pt =>
      right
      have hx : pt.x = 500 := lineIntersection_vertical_some _ _ _ _ _ pt hli
      have hdist : cam0.maxDistance < distance (cameraPos cam0) pt := by
        have h1 : |pt.x - (cameraPos cam0).x| = 400 := by
          rw [hx]
          norm_num [cameraPos, cam0]
        have h2 := abs_dx_le_distance (cameraPos cam0) pt
        rw [h1] at h2
        show (300 : ℝ) < _
        linarith
      unfold castRay
      rw [hch]
      simp only [closestStep, hli]
      rw [if_pos hdist]
      norm_num [cam0]

/-- The ray of `cam0` at angle `0` reaches `(700, 100)`. -/
theorem rayEnd_at_zero : rayEndOf cam0 0 = ⟨700, 100⟩ := by
  simp only [rayEndOf, Real.cos_zero, Real.sin_zero, cam0]
  norm_num

/-- The angle-`0` ray of `cam0` meets the obstacle segment at `(500, 100)`. -/
theorem lineIntersection_at_zero :
    lineIntersection (cameraPos cam0) (rayEndOf cam0 0) ⟨500, 50⟩ ⟨500, 150⟩ =
      some ⟨500, 100⟩ := by
  rw [rayEnd_at_zero]
  show lineIntersection ⟨100, 100⟩ ⟨700, 100⟩ ⟨500, 50⟩ ⟨500, 150⟩ = _
  unfold lineIntersection
  norm_num

/-- The hit of the obstacle at `(500, 100)` lies at distance `400`. -/
theorem distance_at_zero : distance (cameraPos cam0) ⟨500, 100⟩ = 400 := by
  show distance ⟨100, 100⟩ ⟨500, 100⟩ = 400
  unfold distance
  rw [show ((500 : ℝ) - 100) * ((500 : ℝ) - 100) +
      ((100 : ℝ) - 100) * ((100 : ℝ) - 100) = 400 ^ 2 by norm_num]
  exact Real.sqrt_sq (by norm_num)

/-- At angle `0`, `cam0` with the far obstacle records the capped hit
`(400, 100)` at distance exactly `300`. -/
theorem castRay_at_zero :
    castRay cam0 0 (getAllSegments [obs500] bounds0) =
      some ⟨0, ⟨400, 100⟩, 300⟩ := by
  rcases castRay_obs_cap 0 with h | h
  · exfalso
    have hseg : getAllSegments [obs500] bounds0 =
        boundarySegments bounds0 ++ [⟨⟨500, 50⟩, ⟨500, 150⟩⟩] := by
      simp [getAllSegments, obstacleSegments, obs500]
    have hch : closestHit cam0 (rayEndOf cam0 0) (getAllSegments [obs500] bounds0) =
        closestStep cam0 (rayEndOf cam0 0) none ⟨⟨500, 50⟩, ⟨500, 150⟩⟩ := by
      rw [hseg]
      unfold closestHit
      rw [List.foldl_append]
      have hb := boundary_miss 0
      unfold closestHit at hb
      rw [hb]
      rfl
    unfold castRay at h
    rw [hch] at h
    simp only [closestStep, lineIntersection_at_zero] at h
    split_ifs at h
  · rw [h]
    simp only [Real.cos_zero, Real.sin_zero]
    norm_num

/-- C6.  The specification says an obstacle placed beyond `maxDistance`
along a ray must not change that ray's reported hit point.  On the code,
the angle-`0` ray of the test sensor reports no hit at all with no
obstacles (the inflated boundary is unreachable), yet adding a line
obstacle crossing the ray at distance `400 > maxDistance = 300` makes the
same ray report a hit at exactly `(400, 100)`, distance `300`: the
beyond-range obstacle changes the reported hit (absent to present),
against the claim and the intent of the code's own margin comment. -/
theorem claim6_beyond_range_obstacle_changes_hit :
    castRay cam0 0 (getAllSegments [] bounds0) = none ∧
    castRay cam0 0 (getAllSegments [obs500] bounds0) =
      some ⟨0, ⟨400, 100⟩, 300⟩ :=
  ⟨castRay_empty_none 0, castRay_at_zero⟩

/-!
## Membership in the candidate angle set, and normalization bounds
-/

/-- `addAngle` contains the added angle. -/
theorem mem_addAngle_self (l : List ℝ) (a : ℝ) : a ∈ addAngle l a := by
  unfold addAngle
  split_ifs with h
  · exact h
  · simp

/-- `addAngle` preserves membership. -/
theorem mem_addAngle_of_mem (l : List ℝ) (b a : ℝ) (h : a ∈ l) :
    a ∈ addAngle l b := by
  unfold addAngle
  split_ifs
  · exact h
  · exact List.mem_append_left _ h

/-- `segmentAngles` preserves membership. -/
theorem mem_segmentAngles_of_mem (camera : Camera) (l : List ℝ)
    (seg : Segment) (a : ℝ) (h : a ∈ l) : a ∈ segmentAngles camera l seg := by
  unfold segmentAngles
  exact mem_addAngle_of_mem _ _ _ (mem_addAngle_of_mem _ _ _
    (mem_addAngle_of_mem _ _ _ (mem_addAngle_of_mem _ _ _
      (mem_addAngle_of_mem _ _ _ (mem_addAngle_of_mem _ _ _ h)))))

/-- Folding `segmentAngles` preserves membership. -/
theorem mem_foldl_segmentAngles (camera : Camera) :
    ∀ (segs : List Segment) (l : List ℝ) (a : ℝ), a ∈ l →
      a ∈ segs.foldl (segmentAngles camera) l
  | [], _, _, h => h
  | s :: rest, l, a, h =>
      mem_foldl_segmentAngles camera rest _ a
        (mem_segmentAngles_of_mem camera l s a h)

/-- Folding uniform-angle additions preserves membership. -/
theorem mem_foldl_uniform_of_mem (g : ℕ → ℝ) :
    ∀ (xs : List ℕ) (l : List ℝ) (a : ℝ), a ∈ l →
      a ∈ xs.foldl (fun acc j => addAngle acc (g j)) l
  | [], _, _, h => h
  | x :: rest, l, a, h =>
      mem_foldl_uniform_of_mem g rest _ a (mem_addAngle_of_mem _ _ _ h)

/-- Folding uniform-angle additions introduces every listed angle. -/
theorem mem_foldl_uniform (g : ℕ → ℝ) :
    ∀ (xs : List ℕ) (l : List ℝ) (i : ℕ), i ∈ xs →
      g i ∈ xs.foldl (fun acc j => addAngle acc (g j)) l := by
  intro xs
  induction xs with
  | nil => intro l i h; cases h
  | cons x rest ih =>
      intro l i h
      rcases List.mem_cons.mp h with h1 | h2
      · subst h1
        exact mem_foldl_uniform_of_mem g rest _ _ (mem_addAngle_self l (g i))
      · exact ih _ _ h2

/-- The first normalization loop is the identity at or below `π`. -/
theorem normLoop1_of_le (d : ℝ) (h : d ≤ Real.pi) : normLoop1 d = d := by
  unfold normLoop1
  rw [if_neg (not_lt.mpr h)]

/-- The second normalization loop is the identity at or above `-π`. -/
theorem normLoop2_of_ge (d : ℝ) (h : -Real.pi ≤ d) : normLoop2 d = d := by
  unfold normLoop2
  rw [if_neg (not_lt.mpr h)]

/-- The normalization is the identity on `[-π, π]`. -/
theorem normalizeDiff_of_mem (d : ℝ) (h1 : -Real.pi ≤ d) (h2 : d ≤ Real.pi) :
    normalizeDiff d = d := by
  unfold normalizeDiff
  rw [normLoop1_of_le d h2, normLoop2_of_ge d h1]

/-- The first loop always ends at or below `π`. -/
theorem normLoop1_le (d : ℝ) : normLoop1 d ≤ Real.pi := by
  induction d using normLoop1.induct with
  | case1 d h ih => rw [normLoop1, if_pos h]; exact ih
  | case2 d h => rw [normLoop1, if_neg h]; exact not_lt.mp h

/-- The second loop always ends at or above `-π`. -/
theorem normLoop2_ge (d : ℝ) : -Real.pi ≤ normLoop2 d := by
  induction d using normLoop2.induct with
  | case1 d h ih => rw [normLoop2, if_pos h]; exact ih
  | case2 d h => rw [normLoop2, if_neg h]; exact not_lt.mp h

/-- The second loop preserves the upper bound `π`. -/
theorem normLoop2_le (d : ℝ) (h : d ≤ Real.pi) : normLoop2 d ≤ Real.pi := by
  induction d using normLoop2.induct with
  | case1 d hlt ih =>
      rw [normLoop2, if_pos hlt]
      apply ih
      have hpi : 0 < Real.pi := Real.pi_pos
      linarith
  | case2 d hlt => rw [normLoop2, if_neg hlt]; exact h

/-- The normalized difference always lies in `[-π, π]`. -/
theorem abs_normalizeDiff_le_pi (d : ℝ) : |normalizeDiff d| ≤ Real.pi := by
  unfold normalizeDiff
  exact abs_le.mpr ⟨normLoop2_ge _, normLoop2_le _ (normLoop1_le d)⟩

/-- `0` is always among the candidate angles of `cam0` (the uniform angle
at index `0`, which passes the FOV filter for the facing angle `0`). -/
theorem zero_mem_uniqueAngles (segs : List Segment) :
    (0 : ℝ) ∈ getUniqueAngles cam0 segs := by
  unfold getUniqueAngles
  apply List.mem_append_left
  rw [List.mem_filter]
  constructor
  · have h0 : ((0 : ℕ) : ℝ) / ((rayCount : ℕ) : ℝ) * (Real.pi * 2) = 0 := by
      norm_num
    have hmem := mem_foldl_uniform
      (fun i => (i : ℝ) / ((rayCount : ℕ) : ℝ) * (Real.pi * 2))
      (List.range rayCount) (segs.foldl (segmentAngles cam0) []) 0
      (by simp [rayCount])
    simpa [h0] using hmem
  · rw [decide_eq_true_eq]
    have hz : (0 : ℝ) - cam0.angle * Real.pi / 180 = 0 := by
      norm_num [cam0]
    rw [hz, normalizeDiff_of_mem 0 (by linarith [Real.pi_pos]) Real.pi_pos.le]
    have : cam0.fov * Real.pi / 180 / 2 = Real.pi / 4 := by
      norm_num [cam0]
      ring
    rw [this]
    simp
    positivity

/-!
## C4: polygon shape
-/

/-- The capped hit at angle `0` belongs to the computed hit list of the
far-obstacle scenario. -/
theorem hit_zero_mem :
    (⟨0, ⟨400, 100⟩, 300⟩ : RayHit) ∈
      castRays cam0 (getUniqueAngles cam0 (getAllSegments [obs500] bounds0))
        (getAllSegments [obs500] bounds0) := by
  unfold castRays
  rw [List.mem_mergeSort]
  exact List.mem_filterMap.mpr
    ⟨0, zero_mem_uniqueAngles _, castRay_at_zero⟩

/-- In the far-obstacle scenario every recorded hit point differs from
the sensor position: all hits are capped at distance `300`. -/
theorem hits_point_ne_sensor (h : RayHit)
    (hmem : h ∈ castRays cam0
      (getUniqueAngles cam0 (getAllSegments [obs500] bounds0))
      (getAllSegments [obs500] bounds0)) :
    h.point ≠ (⟨100, 100⟩ : Point) := by
  unfold castRays at hmem
  rw [List.mem_mergeSort] at hmem
  obtain ⟨a, _, hcast⟩ := List.mem_filterMap.mp hmem
  rcases castRay_obs_cap a with h1 | h1
  · rw [h1] at hcast
    cases hcast
  · rw [h1] at hcast
    injection hcast with he
    intro hpt
    rw [← he] at hpt
    have hx : 100 + Real.cos a * 300 = 100 := congrArg Point.x hpt
    have hy : 100 + Real.sin a * 300 = 100 := congrArg Point.y hpt
    have hc : Real.cos a = 0 := by linarith
    have hs : Real.sin a = 0 := by linarith
    have hsum := Real.sin_sq_add_cos_sq a
    rw [hc, hs] at hsum
    norm_num at hsum

/-- Helper: `getLast?` skips a head in front of a nonempty tail. -/
theorem getLast?_cons_ne {α : Type} (x : α) (l : List α) (h : l ≠ []) :
    (x :: l).getLast? = l.getLast? := by
  cases l with
  | nil => exact absurd rfl h
  | cons b t => exact List.getLast?_cons_cons

/-- C4.  The specification says the Visibility Result starts and ends at
the sensor's own position.  The code only prepends the sensor position
(`buildVisibilityPolygon`): in the far-obstacle scenario the polygon
starts at the sensor `(100, 100)` but its last vertex is a capped hit on
the circle of radius `300`, never the sensor position. -/
theorem claim4_polygon_does_not_end_at_sensor :
    (calculateVisibility cam0 [obs500] bounds0).polygon.head? =
      some ⟨100, 100⟩ ∧
    (calculateVisibility cam0 [obs500] bounds0).polygon.getLast? ≠
      some ⟨100, 100⟩ := by
  have hpoly : (calculateVisibility cam0 [obs500] bounds0).polygon =
      cameraPos cam0 ::
        (castRays cam0 (getUniqueAngles cam0 (getAllSegments [obs500] bounds0))
          (getAllSegments [obs500] bounds0)).map (fun hit => hit.point) := rfl
  set hits := castRays cam0
    (getUniqueAngles cam0 (getAllSegments [obs500] bounds0))
    (getAllSegments [obs500] bounds0) with hhits
  have hne : hits ≠ [] := List.ne_nil_of_mem hit_zero_mem
  have hmapne : hits.map (fun hit => hit.point) ≠ [] := by
    simpa using hne
  constructor
  · rw [hpoly]
    rfl
  · rw [hpoly, getLast?_cons_ne _ _ hmapne,
      List.getLast?_eq_getLast _ hmapne]
    intro hcontra
    injection hcontra with hlast
    have hmem := List.getLast_mem hmapne
    rw [hlast] at hmem
    obtain ⟨h, hh, hpt⟩ := List.mem_map.mp hmem
    exact hits_point_ne_sensor h hh hpt

/-- C4 amended.  For every input, the polygon starts at the sensor
position, its remaining vertices are exactly the hit points in order,
and the hits are sorted by angle ascending; the sensor position is not
appended again at the end. -/
theorem claim4_amended_polygon_structure (camera : Camera)
    (obstacles : List Obstacle) (bounds : CanvasBounds) :
    (calculateVisibility camera obstacles bounds).polygon.head? =
      some (cameraPos camera) ∧
    (calculateVisibility camera obstacles bounds).polygon.tail =
      (calculateVisibility camera obstacles bounds).rayHits.map
        (fun hit => hit.point) ∧
    (calculateVisibility camera obstacles bounds).rayHits.Pairwise
      (fun a b => a.angle ≤ b.angle) := by
  refine ⟨rfl, rfl, ?_⟩
  have hs := @List.sorted_mergeSort RayHit hitLE
    (fun a b c h1 h2 => by
      simp only [hitLE, decide_eq_true_eq] at h1 h2 ⊢
      exact le_trans h1 h2)
    (fun a b => by
      simp only [hitLE, Bool.or_eq_true, decide_eq_true_eq]
      exact le_total a.angle b.angle)
    ((getUniqueAngles camera (getAllSegments obstacles bounds)).filterMap
      fun angle => castRay camera angle (getAllSegments obstacles bounds))
  exact hs.imp fun h => by
    simpa only [hitLE, decide_eq_true_eq] using h

/-!
## C7: FOV containment
-/

/-- A valid intersection lies on the ray between its two endpoints. -/
theorem lineIntersection_param (p1 p2 p3 p4 : Point) (pt : Point)
    (h : lineIntersection p1 p2 p3 p4 = some pt) :
    ∃ t : ℝ, 0 ≤ t ∧ t ≤ 1 ∧
      pt.x = p1.x + t * (p2.x - p1.x) ∧ pt.y = p1.y + t * (p2.y - p1.y) := by
  simp only [lineIntersection] at h
  split_ifs at h with h1 h2
  obtain ⟨ht0, ht1, hrest⟩ := h2
  injection h with h
  exact ⟨_, ht0, ht1, (congrArg Point.x h).symm, (congrArg Point.y h).symm⟩

/-- The point kept by the closest-intersection fold always comes from a
valid intersection of the ray with some segment. -/
theorem closestHit_source (camera : Camera) (rayEnd : Point)
    (segs : List Segment) (best : Point × ℝ)
    (h : closestHit camera rayEnd segs = some best) :
    ∃ seg : Segment,
      lineIntersection (cameraPos camera) rayEnd seg.p1 seg.p2 = some best.1 := by
  unfold closestHit at h
  suffices H : ∀ (l : List Segment) (acc : Option (Point × ℝ)),
      (∀ b, acc = some b → ∃ seg : Segment,
        lineIntersection (cameraPos camera) rayEnd seg.p1 seg.p2 = some b.1) →
      ∀ b, l.foldl (closestStep camera rayEnd) acc = some b →
        ∃ seg : Segment,
          lineIntersection (cameraPos camera) rayEnd seg.p1 seg.p2 = some b.1 by
    exact H segs none (fun b hb => by cases hb) best h
  intro l
  induction l with
  | nil => exact fun acc hacc b hb => hacc b hb
  | cons s rest ih =>
      intro acc hacc b hb
      rw [List.foldl_cons] at hb
      apply ih (closestStep camera rayEnd acc s) ?_ b hb
      intro b2 hb2
      cases hli : lineIntersection (cameraPos camera) rayEnd s.p1 s.p2 with
      | none =>
          unfold closestStep at hb2
          rw [hli] at hb2
          dsimp only at hb2
          exact hacc b2 hb2
      | some pt =>
          unfold closestStep at hb2
          rw [hli] at hb2
          dsimp only at hb2
          cases acc with
          | none =>
              dsimp only at hb2
              injection hb2 with hb2
              exact ⟨s, by rw [hli, ← hb2]⟩
          | some bestAcc =>
              dsimp only at hb2
              split_ifs at hb2
              · injection hb2 with hb2
                exact ⟨s, by rw [hli, ← hb2]⟩
              · exact hacc b2 hb2

/-- The shape of every recorded hit: the recorded angle is the cast angle
and the hit point lies along the ray direction at a nonnegative
parameter. -/
theorem castRay_some_spec (camera : Camera) (a : ℝ) (segs : List Segment)
    (hit : RayHit) (hmax : 0 ≤ camera.maxDistance)
    (h : castRay camera a segs = some hit) :
    hit.angle = a ∧ ∃ r : ℝ, 0 ≤ r ∧
      hit.point.x = camera.x + r * Real.cos a ∧
      hit.point.y = camera.y + r * Real.sin a := by
  unfold castRay at h
  cases hch : closestHit camera (rayEndOf camera a) segs with
  | none => rw [hch] at h; cases h
  | some best =>
      rw [hch] at h
      simp only at h
      split_ifs at h with hcap
      · injection h with h
        refine ⟨(congrArg RayHit.angle h).symm, camera.maxDistance, hmax, ?_, ?_⟩
        · rw [← h]
          simp only
          ring
        · rw [← h]
          simp only
          ring
      · injection h with h
        obtain ⟨seg, hseg⟩ := closestHit_source camera (rayEndOf camera a) segs best hch
        obtain ⟨t, ht0, ht1, hx, hy⟩ := lineIntersection_param _ _ _ _ _ hseg
        refine ⟨(congrArg RayHit.angle h).symm,
          t * (camera.maxDistance * 2), mul_nonneg ht0 (by linarith), ?_, ?_⟩
        · rw [← h]
          simp only
          rw [hx]
          show (cameraPos camera).x + t *
            ((rayEndOf camera a).x - (cameraPos camera).x) = _
          simp only [cameraPos, rayEndOf]
          ring
        · rw [← h]
          simp only
          rw [hy]
          show (cameraPos camera).y + t *
            ((rayEndOf camera a).y - (cameraPos camera).y) = _
          simp only [cameraPos, rayEndOf]
          ring

/-- Every candidate angle returned by `getUniqueAngles` has normalized
distance from the facing angle at most half the field of view. -/
theorem uniqueAngles_bound (camera : Camera) (segments : List Segment)
    (hfov1 : 0 < camera.fov) (hfov2 : camera.fov ≤ 360) :
    ∀ a ∈ getUniqueAngles camera segments,
      |normalizeDiff (a - camera.angle * Real.pi / 180)| ≤
        camera.fov * Real.pi / 180 / 2 := by
  have hpi := Real.pi_pos
  have hF0 : 0 < camera.fov * Real.pi / 180 / 2 := by positivity
  have hFpi : camera.fov * Real.pi / 180 / 2 ≤ Real.pi := by nlinarith
  intro a ha
  unfold getUniqueAngles at ha
  rcases List.mem_append.mp ha with hf | hb
  · rw [List.mem_filter] at hf
    have := hf.2
    rwa [decide_eq_true_eq] at this
  · rcases List.mem_cons.mp hb with h1 | h2
    · subst h1
      have he : camera.angle * Real.pi / 180 - camera.fov * Real.pi / 180 / 2 -
          camera.angle * Real.pi / 180 = -(camera.fov * Real.pi / 180 / 2) := by
        ring
      rw [he, normalizeDiff_of_mem _ (by linarith) (by linarith), abs_neg,
        abs_of_pos hF0]
    · rcases List.mem_cons.mp h2 with h1 | h3
      · subst h1
        have he : camera.angle * Real.pi / 180 + camera.fov * Real.pi / 180 / 2 -
            camera.angle * Real.pi / 180 = camera.fov * Real.pi / 180 / 2 := by
          ring
        rw [he, normalizeDiff_of_mem _ (by linarith) (by linarith),
          abs_of_pos hF0]
      · cases h3

/-- C7.  All parts of the FOV-containment claim, proved on the code: the
candidate set after filtering only holds angles whose normalized
difference from the facing angle is at most `fov/2`; the two exact FOV
boundary angles are always members (re-added after filtering); a `360`
degree FOV accepts every angle; and every recorded hit lies at a
nonnegative distance along a ray whose angle obeys the same bound, so
each polygon vertex sits within the cone (here proved without any
epsilon slack, which implies the epsilon-relaxed claim). -/
theorem claim7_fov_containment (camera : Camera) (segments : List Segment)
    (obstacles : List Obstacle) (bounds : CanvasBounds)
    (hfov1 : 0 < camera.fov) (hfov2 : camera.fov ≤ 360)
    (hmax : 0 ≤ camera.maxDistance) :
    (∀ a ∈ getUniqueAngles camera segments,
      |normalizeDiff (a - camera.angle * Real.pi / 180)| ≤
        camera.fov * Real.pi / 180 / 2) ∧
    (camera.angle * Real.pi / 180 - camera.fov * Real.pi / 180 / 2 ∈
        getUniqueAngles camera segments ∧
     camera.angle * Real.pi / 180 + camera.fov * Real.pi / 180 / 2 ∈
        getUniqueAngles camera segments) ∧
    (camera.fov = 360 → ∀ d : ℝ,
      |normalizeDiff d| ≤ camera.fov * Real.pi / 180 / 2) ∧
    (∀ hit ∈ (calculateVisibility camera obstacles bounds).rayHits,
      |normalizeDiff (hit.angle - camera.angle * Real.pi / 180)| ≤
        camera.fov * Real.pi / 180 / 2 ∧
      ∃ r : ℝ, 0 ≤ r ∧
        hit.point.x = camera.x + r * Real.cos hit.angle ∧
        hit.point.y = camera.y + r * Real.sin hit.angle) := by
  refine ⟨uniqueAngles_bound camera segments hfov1 hfov2, ⟨?_, ?_⟩, ?_, ?_⟩
  · unfold getUniqueAngles
    exact List.mem_append_right _ (List.mem_cons_self _ _)
  · unfold getUniqueAngles
    exact List.mem_append_right _
      (List.mem_cons_of_mem _ (List.mem_cons_self _ _))
  · intro h360 d
    have he : camera.fov * Real.pi / 180 / 2 = Real.pi := by
      rw [h360]
      ring
    rw [he]
    exact abs_normalizeDiff_le_pi d
  · intro hit hmem
    have hmem2 : hit ∈ castRays camera
        (getUniqueAngles camera (getAllSegments obstacles bounds))
        (getAllSegments obstacles bounds) := hmem
    unfold castRays at hmem2
    rw [List.mem_mergeSort] at hmem2
    obtain ⟨a, hamem, hcast⟩ := List.mem_filterMap.mp hmem2
    obtain ⟨hangle, r, hr0, hrx, hry⟩ :=
      castRay_some_spec camera a (getAllSegments obstacles bounds) hit hmax hcast
    rw [hangle]
    exact ⟨uniqueAngles_bound camera (getAllSegments obstacles bounds)
      hfov1 hfov2 a hamem, r, hr0, hrx, hry⟩

/-- Witness for C7: the hypotheses hold for the test sensor, and the main
containment theorem applies. -/
theorem claim7_fov_containment_witness :
    0 < cam0.fov ∧ cam0.fov ≤ 360 ∧ 0 ≤ cam0.maxDistance ∧
    cam0.angle * Real.pi / 180 - cam0.fov * Real.pi / 180 / 2 ∈
      getUniqueAngles cam0 [] :=
  ⟨by norm_num [cam0], by norm_num [cam0], by norm_num [cam0],
   (claim7_fov_containment cam0 [] [] bounds0 (by norm_num [cam0])
     (by norm_num [cam0]) (by norm_num [cam0])).2.1.1⟩

/-!
## C8: determinism
-/

/-- C8.  `calculateVisibility` is a pure function of the sensor fields,
the obstacle list and the bounds: two calls with identical input produce
the identical vertex sequence.  The embedding is stateless because the
source method reads only its arguments (and the constant `rayCount`),
never mutating them. -/
theorem claim8_deterministic (c1 c2 : Camera) (obs1 obs2 : List Obstacle)
    (b1 b2 : CanvasBounds)
    (hx : c1.x = c2.x) (hy : c1.y = c2.y) (ha : c1.angle = c2.angle)
    (hf : c1.fov = c2.fov) (hm : c1.maxDistance = c2.maxDistance)
    (ho : obs1 = obs2) (hb : b1 = b2) :
    calculateVisibility c1 obs1 b1 = calculateVisibility c2 obs2 b2 := by
  have hc : c1 = c2 := by
    cases c1
    cases c2
    simp_all
  rw [hc, ho, hb]

/-- Witness for C8 at the concrete test input. -/
theorem claim8_deterministic_witness :
    calculateVisibility cam0 [obs500] bounds0 =
      calculateVisibility ⟨100, 100, 0, 90, 300⟩ [obs500] bounds0 :=
  claim8_deterministic cam0 ⟨100, 100, 0, 90, 300⟩ [obs500] [obs500]
    bounds0 bounds0 rfl rfl rfl rfl rfl rfl rfl

/-!
## C9: rectangle corners
-/

/-- Helper: the code's `min` plus half of the absolute difference is the
midpoint. -/
theorem min_add_half_abs (a b : ℝ) : min a b + |b - a| / 2 = (a + b) / 2 := by
  rcases le_total a b with h | h
  · rw [min_eq_left h, abs_of_nonneg (by linarith)]
    ring
  · rw [min_eq_right h, abs_of_nonpos (by linarith)]
    ring

/-- C9.  The code's `getRectangleCorners` computes exactly the corners
described by the specification (rotate the local half-extents by the
stored angle around the center of the axis-aligned box of the two stored
points, then translate), and `getAllSegments` uses these four corners as
the endpoints of the rectangle's four occluding segments in order. -/
theorem claim9_rectangle_corners (r : Obstacle) (p0 p1 : Point)
    (hpts : r.points = [p0, p1]) :
    getRectangleCorners r = specRectangleCorners p0 p1 r.angle ∧
    (r.type = ObstacleType.rectangle → ∀ bounds : CanvasBounds,
      getAllSegments [r] bounds = boundarySegments bounds ++
        [⟨(getRectangleCorners r).getD 0 ⟨0, 0⟩,
          (getRectangleCorners r).getD 1 ⟨0, 0⟩⟩,
         ⟨(getRectangleCorners r).getD 1 ⟨0, 0⟩,
          (getRectangleCorners r).getD 2 ⟨0, 0⟩⟩,
         ⟨(getRectangleCorners r).getD 2 ⟨0, 0⟩,
          (getRectangleCorners r).getD 3 ⟨0, 0⟩⟩,
         ⟨(getRectangleCorners r).getD 3 ⟨0, 0⟩,
          (getRectangleCorners r).getD 0 ⟨0, 0⟩⟩]) := by
  constructor
  · unfold getRectangleCorners specRectangleCorners rotatePoint
    rw [hpts]
    simp only [List.getD_cons_zero, List.getD_cons_succ, List.map_cons,
      List.map_nil]
    have hcx := min_add_half_abs p0.x p1.x
    have hcy := min_add_half_abs p0.y p1.y
    simp only [List.cons.injEq, and_true, Point.mk.injEq]
    refine ⟨⟨?_, ?_⟩, ⟨?_, ?_⟩, ⟨?_, ?_⟩, ⟨?_, ?_⟩⟩ <;>
      first
        | (rw [hcx]; ring)
        | (rw [hcx])
        | (rw [hcy]; ring)
        | (rw [hcy])
  · intro htype bounds
    unfold getAllSegments
    congr 1
    simp only [List.flatMap_cons, List.flatMap_nil, List.append_nil]
    unfold obstacleSegments
    rw [htype, hpts]
    norm_num [List.range_succ]

/-- Witness for C9: a concrete rectangle with stored corners `(0, 0)` and
`(4, 2)` rotated by `45` degrees. -/
theorem claim9_rectangle_corners_witness :
    (⟨ObstacleType.rectangle, [⟨0, 0⟩, ⟨4, 2⟩], 45⟩ : Obstacle).points =
      [⟨0, 0⟩, ⟨4, 2⟩] ∧
    getRectangleCorners ⟨ObstacleType.rectangle, [⟨0, 0⟩, ⟨4, 2⟩], 45⟩ =
      specRectangleCorners ⟨0, 0⟩ ⟨4, 2⟩
        (⟨ObstacleType.rectangle, [⟨0, 0⟩, ⟨4, 2⟩], 45⟩ : Obstacle).angle :=
  ⟨rfl, (claim9_rectangle_corners
    ⟨ObstacleType.rectangle, [⟨0, 0⟩, ⟨4, 2⟩], 45⟩ ⟨0, 0⟩ ⟨4, 2⟩ rfl).1⟩

/-!
## C3, C5, C10: scheduler behaviour
-/

/-- C3 counterexample.  The claim says `setEnabled(false)` cancels a
pending debounce timer.  The code's `setEnabled` never touches
`debounceTimer`: disabling from a state with a pending timer leaves the
timer pending. -/
theorem claim3_counterexample_timer_survives :
    (setEnabled false 600 envEmpty ⟨true, some 500, [], 0⟩).timer = some 500 ∧
    (setEnabled false 600 envEmpty ⟨true, some 500, [], 0⟩).timer ≠ none := by
  constructor
  · rfl
  · intro h
    cases h

/-- Invariant: from a disabled state with an empty cache, any run of
events that never enables the scheduler keeps it disabled, keeps the
cache empty, and performs no recomputation pass. -/
theorem disabled_run_invariant (env : EditorEnv) :
    ∀ (events : List SchedulerEvent) (s : SchedulerState),
      s.enabled = false → s.visionData = [] →
      (∀ e ∈ events, ∀ t : ℕ, e ≠ SchedulerEvent.enable true t) →
      (schedRun env s events).enabled = false ∧
      (schedRun env s events).visionData = [] ∧
      (schedRun env s events).computeCount = s.computeCount
  | [], s, h1, h2, _ => ⟨h1, h2, rfl⟩
  | e :: rest, s, h1, h2, hne => by
      have hstep : (schedStep env s e).enabled = false ∧
          (schedStep env s e).visionData = [] ∧
          (schedStep env s e).computeCount = s.computeCount := by
        cases e with
        | request t =>
            unfold schedStep requestRecalculation
            rw [h1]
            exact ⟨h1, h2, rfl⟩
        | fire =>
            unfold schedStep fireTimer
            cases htimer : s.timer with
            | none => exact ⟨h1, h2, rfl⟩
            | some tf =>
                unfold recalculateAll
                simp [h1, h2]
        | enable b t =>
            cases b with
            | true => exact absurd rfl (hne _ (List.mem_cons_self _ _) t)
            | false =>
                unfold schedStep setEnabled
                exact ⟨rfl, rfl, rfl⟩
      have hrest := disabled_run_invariant env rest (schedStep env s e)
        hstep.1 hstep.2.1 (fun e2 he2 t => hne e2 (List.mem_cons_of_mem _ he2) t)
      refine ⟨hrest.1, hrest.2.1, ?_⟩
      have hchain : schedRun env s (e :: rest) =
          schedRun env (schedStep env s e) rest := rfl
      rw [hchain, hrest.2.2, hstep.2.2]

/-- C3 amended.  `setEnabled(false)` clears the result cache but does not
cancel the pending timer (the timer field is untouched); nevertheless no
recomputation ever runs until re-enabled, because the timer's callback
`recalculateAll` returns immediately while disabled: over any subsequent
event sequence that never re-enables, the cache stays empty and the count
of completed recomputation passes never changes. -/
theorem claim3_amended_disable_suppresses (env : EditorEnv)
    (s : SchedulerState) (t : ℕ) (events : List SchedulerEvent)
    (hne : ∀ e ∈ events, ∀ t2 : ℕ, e ≠ SchedulerEvent.enable true t2) :
    (setEnabled false t env s).timer = s.timer ∧
    (setEnabled false t env s).visionData = [] ∧
    (schedRun env (setEnabled false t env s) events).visionData = [] ∧
    (schedRun env (setEnabled false t env s) events).computeCount =
      s.computeCount ∧
    (schedRun env (setEnabled false t env s) events).enabled = false := by
  have hrun := disabled_run_invariant env events (setEnabled false t env s)
    rfl rfl hne
  exact ⟨rfl, rfl, hrun.2.1, hrun.2.2, hrun.1⟩

/-- Witness for the amended C3: disabling with a pending timer, then
letting the stale timer fire, leaves the cache empty and performs no
recomputation pass. -/
theorem claim3_amended_witness :
    (∀ e ∈ [SchedulerEvent.fire], ∀ t2 : ℕ,
        e ≠ SchedulerEvent.enable true t2) ∧
    (schedRun envEmpty
        (setEnabled false 600 envEmpty ⟨true, some 500, [], 0⟩)
        [SchedulerEvent.fire]).visionData = [] ∧
    (schedRun envEmpty
        (setEnabled false 600 envEmpty ⟨true, some 500, [], 0⟩)
        [SchedulerEvent.fire]).computeCount = 0 := by
  have hne : ∀ e ∈ [SchedulerEvent.fire], ∀ t2 : ℕ,
      e ≠ SchedulerEvent.enable true t2 := by
    intro e he t2 hcontra
    rw [List.mem_singleton] at he
    rw [he] at hcontra
    cases hcontra
  have h := claim3_amended_disable_suppresses envEmpty
    ⟨true, some 500, [], 0⟩ 600 [SchedulerEvent.fire] hne
  exact ⟨hne, h.2.2.1, h.2.2.2.1⟩

/-- A burst of requests on an enabled scheduler leaves exactly one armed
timer, set to fire `debounceDelay` after the last request, with no other
state change. -/
theorem foldl_request_spec :
    ∀ (ts : List ℕ), ts ≠ [] → ∀ (s : SchedulerState), s.enabled = true →
      ∃ tl : ℕ, ts.getLast? = some tl ∧
        ts.foldl (fun st t => requestRecalculation t st) s =
          { s with timer := some (tl + debounceDelay) }
  | [], h, _, _ => absurd rfl h
  | [t], _, s, hs => ⟨t, rfl, by simp [requestRecalculation, hs]⟩
  | t :: t2 :: rest, _, s, hs => by
      obtain ⟨tl, hl, heq⟩ := foldl_request_spec (t2 :: rest) (by simp)
        { s with timer := some (t + debounceDelay) } hs
      refine ⟨tl, ?_, ?_⟩
      · rw [← hl]
        exact List.getLast?_cons_cons
      · show (t2 :: rest).foldl _ (requestRecalculation t s) = _
        have hreq : requestRecalculation t s =
            { s with timer := some (t + debounceDelay) } := by
          simp [requestRecalculation, hs]
        rw [hreq, heq]

/-- C5.  Debounce coalescing: on an enabled scheduler, each request
replaces the pending timer with one firing `debounceDelay = 400`
time units after that request, so a burst of `N ≥ 1` requests within a
window shorter than the delay leaves a single timer set to fire `400`
after the last request, performs no recomputation during the burst, and
the single timer firing performs exactly one recomputation pass. -/
theorem claim5_debounce_coalescing (env : EditorEnv) (s : SchedulerState)
    (ts : List ℕ) (hne : ts ≠ []) (hs : s.enabled = true)
    (hwindow : ∀ t1 ∈ ts, ∀ t2 ∈ ts, t1 ≤ t2 → t2 - t1 < debounceDelay) :
    (∀ st : SchedulerState, st.enabled = true → ∀ t : ℕ,
        (requestRecalculation t st).timer = some (t + debounceDelay)) ∧
    (ts.foldl (fun st t => requestRecalculation t st) s).timer =
        some (ts.getLast hne + debounceDelay) ∧
    (ts.foldl (fun st t => requestRecalculation t st) s).computeCount =
        s.computeCount ∧
    (fireTimer env (ts.foldl (fun st t => requestRecalculation t st) s)).computeCount =
        s.computeCount + 1 := by
  obtain ⟨tl, hl, heq⟩ := foldl_request_spec ts hne s hs
  have htl : tl = ts.getLast hne := by
    rw [List.getLast?_eq_getLast ts hne] at hl
    injection hl with hl
    exact hl.symm
  refine ⟨?_, ?_, ?_, ?_⟩
  · intro st hst t
    simp [requestRecalculation, hst]
  · rw [heq, ← htl]
  · rw [heq]
  · rw [heq]
    unfold fireTimer recalculateAll
    simp [hs]

/-- Witness for C5: three requests at times `0, 100, 200` on a fresh
enabled scheduler coalesce into one timer, and its firing performs
exactly one recomputation pass. -/
theorem claim5_debounce_witness :
    ([0, 100, 200] : List ℕ) ≠ [] ∧
    (SchedulerState.mk true none [] 0).enabled = true ∧
    (∀ t1 ∈ ([0, 100, 200] : List ℕ), ∀ t2 ∈ ([0, 100, 200] : List ℕ),
        t1 ≤ t2 → t2 - t1 < debounceDelay) ∧
    (fireTimer envEmpty (([0, 100, 200] : List ℕ).foldl
        (fun st t => requestRecalculation t st)
        ⟨true, none, [], 0⟩)).computeCount = 0 + 1 :=
  ⟨by decide, rfl, by decide,
   (claim5_debounce_coalescing envEmpty ⟨true, none, [], 0⟩ [0, 100, 200]
     (by decide) rfl (by decide)).2.2.2⟩

/-- C10.  When the scheduler is disabled, `recalculateAll` returns
immediately: the state — in particular the result cache — is unchanged,
so the force-recompute control is inert while disabled. -/
theorem claim10_recalculateAll_disabled_noop (env : EditorEnv)
    (s : SchedulerState) (h : s.enabled = false) :
    recalculateAll env s = s := by
  unfold recalculateAll
  rw [h]
  rfl

/-- Witness for C10 on the state `setEnabled(false)` leaves behind. -/
theorem claim10_witness :
    recalculateAll envEmpty ⟨false, some 500, [], 0⟩ =
      (⟨false, some 500, [], 0⟩ : SchedulerState) :=
  claim10_recalculateAll_disabled_noop envEmpty ⟨false, some 500, [], 0⟩ rfl

end

end CamPlanner
